import Mathlib

/-!
# Dispatch engine of `fw-common-lib` (`src/base/module.cpp`)

A shallow embedding of the `Module` base class: its timing state, the
`dispatcher()` entry point, the suspend/resume protocol and the FreeRTOS task
binding.  The embedding follows the build with `FREERTOS_USED` defined; a build
without it has no `xHandle` member and its `suspend()`/`resume()` bodies are
the `xHandle == NULL` branches below.

Calls into collaborators (the virtual work function `_dispatcher()` and the
FreeRTOS primitives) are recorded as a list of `Event`s, in program order, so
that "invokes exactly once" and "issues the primitive on task h" are
statements about that list.  Clock readings (`Time::now()`) and the answers
of the task runtime are arguments of the operation that asks for them.
-/

namespace FwCommon

/-! ## The `Time` value type -/

/-- Modelled from the spec: the `Time` class (declared in a header that is not
among the sources).  The spec describes it as a monotonic time/duration value
type "supplying `now()`, addition, comparison, zero-check, and millisecond
conversion"; a value is a signed whole number of milliseconds. -/
structure Time where
  msec : Int
deriving DecidableEq, Repr

namespace Time

/-- Modelled from the spec: the conversion from an integer used by
`_delayTime(0)`, `_delayTime = 0` and `... : 0` (only ever applied to `0`). -/
def ofInt (n : Int) : Time := ⟨n⟩

/-- Modelled from the spec: `Time(h, m, s)`; `Time(24, 0, 0)` is the spec's
"large sentinel delay (defined as 24 hours)". -/
def hms (h m s : Int) : Time := ⟨((h * 60 + m) * 60 + s) * 1000⟩

/-- Modelled from the spec: `Time::isZero()`, the zero-check. -/
def isZero (t : Time) : Bool := decide (t.msec = 0)

/-- Modelled from the spec: `Time::toMsec()`, the conversion to milliseconds. -/
def toMsec (t : Time) : Int := t.msec

/-- Modelled from the spec: `operator+` on `Time`. -/
def add (a b : Time) : Time := ⟨a.msec + b.msec⟩

/-- Modelled from the spec: `operator-` on `Time` (signed, so the result of
subtracting a later time from an earlier one is negative). -/
def sub (a b : Time) : Time := ⟨a.msec - b.msec⟩

/-- Modelled from the spec: `operator>=` on `Time`. -/
def ge (a b : Time) : Bool := decide (b.msec ≤ a.msec)

end Time

/-! ## Task runtime interface -/

/-- A non-null `TaskHandle_t`; `NULL` is `none` in `Option TaskHandle`. -/
abbrev TaskHandle := Nat

/-- FreeRTOS `eTaskState`, the answer of `eTaskGetState`. -/
inductive eTaskState
  | eRunning | eReady | eBlocked | eSuspended | eDeleted | eInvalid
deriving DecidableEq, Repr

/-- One call made by the module into a collaborator, with its arguments. -/
inductive Event
  /-- The virtual work function `_dispatcher()`. -/
  | workCall
  | xTaskCreate (name : String) (stack : Nat) (prior : Nat)
  | vTaskSuspend (xTaskToSuspend : Option TaskHandle)
  | vTaskResume (xTaskToResume : Option TaskHandle)
  | xTaskNotifyGive (xTaskToNotify : Option TaskHandle)
  | ulTaskNotifyTake (xClearCountOnExit : Bool) (xTicksToWait : Nat)
  | vTaskDelete (xTaskToDelete : Option TaskHandle)
deriving DecidableEq, Repr

/-- The task a FreeRTOS primitive taking a handle acts on when `caller` is the
running task: FreeRTOS documents a `NULL` handle as "the calling task". -/
def targetTask (caller : TaskHandle) (arg : Option TaskHandle) : TaskHandle :=
  match arg with
  | some h => h
  | none => caller

/-! ## Module state -/

/-- The data members of `Module`. -/
structure Module where
  _delayTime : Time
  _nextCallTime : Time
  _suspended : Bool
  _availability : Bool
  xHandle : Option TaskHandle
deriving DecidableEq, Repr

/-- The module-specific work function `_dispatcher()`: it runs on the module
(which it may change through the base class's interface) and returns the next
requested delay. -/
abbrev Work := Module → Time × Module

/-- What a `void` member function leaves behind: the module and the calls it
made. -/
structure Effect where
  state : Module
  events : List Event
deriving DecidableEq, Repr

/-- What `dispatcher()` leaves behind: its return value, the module and the
calls it made. -/
structure Dispatch where
  ret : Time
  state : Module
  events : List Event
deriving DecidableEq, Repr

/-- Number of invocations of the work function recorded in a list of calls. -/
def workCalls (es : List Event) : Nat := es.count Event.workCall

namespace Module

/-- Constructor `Module::Module()`. -/
def new : Module :=
  { _delayTime := Time.ofInt 0
    _nextCallTime := Time.ofInt 0
    _suspended := false
    _availability := true
    xHandle := none }

/-- Constructor `Module::Module(name, stack, prior)`.  The constructor does not initialise
`xHandle`; `uninit` is what the member holds before `xTaskCreate` runs and
`created` is what `xTaskCreate` writes through `&xHandle` (nothing when the
task could not be created). -/
def newTask (name : String) (stack prior : Nat)
    (uninit created : Option TaskHandle) : Effect :=
  { state :=
      { _delayTime := Time.ofInt 0
        _nextCallTime := Time.ofInt 0
        _suspended := false
        _availability := true
        xHandle := match created with
          | some h => some h
          | none => uninit }
    events := [Event.xTaskCreate name stack prior] }

/-- Member function `Module::taskInit(name, stack, prior)`; `created` is what `xTaskCreate`
writes through `&xHandle`. -/
def taskInit (m : Module) (name : String) (stack prior : Nat)
    (created : Option TaskHandle) : Effect :=
  if m.xHandle = none then
    { state := { m with xHandle := match created with
                          | some h => some h
                          | none => m.xHandle }
      events := [Event.xTaskCreate name stack prior] }
  else
    { state := m, events := [] }

/-- Member function `Module::isAvailable()`. -/
def isAvailable (m : Module) : Bool := m._availability

/-- Member function `Module::delayTime()`. -/
def delayTime (m : Module) : Time := m._delayTime

/-- Member function `Module::nextCallTime()`. -/
def nextCallTime (m : Module) : Time := m._nextCallTime

/-- Member function `Module::dispatcher()`.  `now` is the reading `Time now = Time::now()`,
`now2` the reading taken by `Time::now() + _delayTime` after the work function
returned; `_dispatcher` is the work function of the concrete module. -/
def dispatcher (m : Module) (_dispatcher : Work) (now now2 : Time) : Dispatch :=
  if m._suspended then
    { ret := Time.hms 24 0 0, state := m, events := [] }
  else if m._delayTime.isZero || now.ge m._nextCallTime then
    let r := _dispatcher m
    let m1 : Module := { r.2 with _delayTime := r.1 }
    let m2 : Module := { m1 with _nextCallTime := now2.add m1._delayTime }
    { ret := m2._delayTime, state := m2, events := [Event.workCall] }
  else
    let estimatedTime := now.sub m._nextCallTime
    { ret := if estimatedTime.toMsec ≥ 0 then estimatedTime else Time.ofInt 0
      state := m
      events := [] }

/-- Member function `Module::suspend()`. -/
def suspend (m : Module) : Effect :=
  if m.xHandle.isSome then
    { state := m, events := [Event.vTaskSuspend none] }
  else
    { state := { m with _suspended := true }, events := [] }

/-- Member function `Module::resume()`; `eTaskGetState` is the task runtime's answer to the
state query. -/
def resume (m : Module) (eTaskGetState : TaskHandle → eTaskState) : Effect :=
  let m1 : Module := { m with _delayTime := Time.ofInt 0 }
  match m1.xHandle with
  | some h =>
    if eTaskGetState h = eTaskState.eSuspended then
      { state := m1, events := [Event.vTaskResume (some h)] }
    else
      { state := m1, events := [Event.xTaskNotifyGive (some h)] }
  | none =>
    { state := { m1 with _suspended := false }, events := [] }

/-- Member function `Module::setAvailability(value)`. -/
def setAvailability (m : Module) (value : Bool) : Module :=
  { m with _availability := value }

end Module

/-! ## Sequences of calls on one module -/

/-- One call on a module by its driver, together with what the collaborators
answer during that call. -/
inductive Op
  | dispatcher (_dispatcher : Work) (now now2 : Time)
  | suspend
  | resume (eTaskGetState : TaskHandle → eTaskState)
  | setAvailability (value : Bool)
  | taskInit (name : String) (stack prior : Nat) (created : Option TaskHandle)

/-- The module after one call. -/
def Op.apply (m : Module) : Op → Module
  | Op.dispatcher w now now2 => (m.dispatcher w now now2).state
  | Op.suspend => m.suspend.state
  | Op.resume q => (m.resume q).state
  | Op.setAvailability v => m.setAvailability v
  | Op.taskInit name stack prior created => (m.taskInit name stack prior created).state

/-- The module after a sequence of calls, first call first. -/
def runOps (m : Module) (ops : List Op) : Module := ops.foldl Op.apply m

/-- The call is `suspend()`, `resume()`, or a `dispatcher()` whose work function
leaves the availability flag as it found it (it does not call
`setAvailability`). -/
def Op.isScheduling : Op → Prop
  | Op.dispatcher w _ _ => ∀ m : Module, (w m).2._availability = m._availability
  | Op.suspend => True
  | Op.resume _ => True
  | Op.setAvailability _ => False
  | Op.taskInit _ _ _ _ => False

/-- A work function that returns the fixed delay `d` and leaves the module as
it is. -/
def constWork (d : Time) : Work := fun m => (d, m)

/-- The spec's scenario: a freshly constructed polled module whose work
function is fixed at 1000 ms, after its first `dispatcher()` call at t = 0. -/
def scenarioAfterFirst : Module :=
  (Module.new.dispatcher (constWork ⟨1000⟩) ⟨0⟩ ⟨0⟩).state

/-- A task-bound module: a freshly constructed one whose bound task is task 1. -/
def boundToTask1 : Module := { Module.new with xHandle := some 1 }

/-! ## Program order inside `resume()` -/

/-- One step of a member function's body, in program order: an assignment to a
data member or a call into a collaborator. -/
inductive Action
  | setDelayTime (t : Time)
  | setSuspended (b : Bool)
  | call (e : Event)
deriving DecidableEq, Repr

/-- The steps of `Module::resume()` in the order the body performs them:
`_delayTime = 0` first, then the branch on `xHandle`. -/
def Module.resumeSteps (m : Module) (eTaskGetState : TaskHandle → eTaskState) :
    List Action :=
  Action.setDelayTime (Time.ofInt 0) ::
    (match m.xHandle with
     | some h =>
       if eTaskGetState h = eTaskState.eSuspended then
         [Action.call (Event.vTaskResume (some h))]
       else
         [Action.call (Event.xTaskNotifyGive (some h))]
     | none => [Action.setSuspended false])

/-- The effect of one step on the module and on the calls made so far. -/
def Action.run (e : Effect) : Action → Effect
  | Action.setDelayTime t => { e with state := { e.state with _delayTime := t } }
  | Action.setSuspended b => { e with state := { e.state with _suspended := b } }
  | Action.call ev => { e with events := e.events ++ [ev] }

/-! ## The task-bound loop -/

/-- One pass through the body of the `while (1)` loop of `Module::task`:
`dispatcher()` and then `ulTaskNotifyTake(pdTRUE, pdMS_TO_TICKS(delay.toMsec()))`.
The FreeRTOS conversion `pdMS_TO_TICKS` depends on the configured tick rate and
is an argument. -/
def Module.taskIteration (pdMS_TO_TICKS : Int → Nat) (m : Module) (w : Work)
    (now now2 : Time) : Effect :=
  let delay := m.dispatcher w now now2
  { state := delay.state
    events := delay.events ++ [Event.ulTaskNotifyTake true (pdMS_TO_TICKS delay.ret.toMsec)] }

/-- The `while (1)` loop of `Module::task` on a module.  The loop never exits;
`env` lists, for each pass that is observed, the work function's behaviour and
the two clock readings of that pass, and the result is the module and the
calls made after `env.length` passes. -/
def Module.taskLoop (pdMS_TO_TICKS : Int → Nat) (m : Module) :
    List (Work × Time × Time) → Effect
  | [] => { state := m, events := [] }
  | (w, now, now2) :: rest =>
    let pass := m.taskIteration pdMS_TO_TICKS w now now2
    let later := Module.taskLoop pdMS_TO_TICKS pass.state rest
    { state := later.state, events := pass.events ++ later.events }

/-- The static member `Module::task(instance)`.  With a null instance the task
deletes itself (`vTaskDelete(NULL)` does not return to its caller), otherwise
it runs the loop. -/
def Module.task (pdMS_TO_TICKS : Int → Nat) (inst : Option Module)
    (env : List (Work × Time × Time)) : Option Module × List Event :=
  match inst with
  | none => (none, [Event.vTaskDelete none])
  | some m =>
    let r := m.taskLoop pdMS_TO_TICKS env
    (some r.state, r.events)

/-- Number of wake-notification waits recorded in a list of calls. -/
def waitCalls (es : List Event) : Nat :=
  es.countP fun e =>
    match e with
    | Event.ulTaskNotifyTake _ _ => true
    | _ => false

/-- A tick conversion for a 1 kHz tick: one tick per millisecond. -/
def ticks1kHz (ms : Int) : Nat := ms.toNat

/-! ## Bookkeeping along a sequence of calls -/

/-- What is known about the last invocation of the work function in a run: the
clock reading taken when it returned, the delay it returned, and whether
`resume()` has been called since. -/
structure LastWork where
  reading : Time
  returned : Time
  resumed : Bool
deriving DecidableEq, Repr

/-- The record of the last work invocation after one more call on module `m`. -/
def Op.track (m : Module) (g : Option LastWork) : Op → Option LastWork
  | Op.dispatcher w now now2 =>
    if 0 < workCalls (m.dispatcher w now now2).events then
      some { reading := now2, returned := (w m).1, resumed := false }
    else g
  | Op.resume _ =>
    match g with
    | some l => some { l with resumed := true }
    | none => none
  | Op.suspend => g
  | Op.setAvailability _ => g
  | Op.taskInit _ _ _ _ => g

/-- The record of the last work invocation after a sequence of calls. -/
def trackOps : Module → Option LastWork → List Op → Option LastWork
  | _, g, [] => g
  | m, g, op :: rest => trackOps (op.apply m) (op.track m g) rest

/-- Whether the call is `resume()`. -/
def Op.isResume : Op → Bool
  | Op.resume _ => true
  | _ => false

/-- Whether the call is `taskInit(...)`. -/
def Op.isTaskInit : Op → Bool
  | Op.taskInit _ _ _ _ => true
  | _ => false

/-- The work function of a `dispatcher()` call leaves the task handle as it
found it (it does not itself call `taskInit`); true of every other call. -/
def Op.workKeepsHandle : Op → Prop
  | Op.dispatcher w _ _ => ∀ m : Module, (w m).2.xHandle = m.xHandle
  | _ => True

/-- A task name for the examples. -/
def demoTaskName : String := "module"

/-- An answer of the task runtime in which no task is suspended. -/
def allReady : TaskHandle → eTaskState := fun _ => eTaskState.eReady

/-! ## Hardware version driver (`src/sys/hw/espversion.cpp`) -/

namespace EspVersion

/-- The local constant `NO_OF_SAMPLES` of `getHwValue`. -/
def NO_OF_SAMPLES : Nat := 64

/-- The compound assignment `acc += r` of a `uint32_t` accumulator and an
`int` reading: the sum is taken modulo 2^32. -/
def addU32 (acc : Nat) (r : Int) : Nat := (((acc : Int) + r) % 2 ^ 32).toNat

/-- The accumulators `(hwMajor, hwMinor)` of `getHwValue` after `i` passes of
the sampling loop; `major k` and `minor k` are what `adc1_get_raw` returns for
`ADC1_CHANNEL_0` and `ADC1_CHANNEL_3` in pass `k`. -/
def sampleLoop (major minor : Nat → Int) : Nat → Nat × Nat
  | 0 => (0, 0)
  | i + 1 =>
    let acc := sampleLoop major minor i
    (addU32 acc.1 (major i), addU32 acc.2 (minor i))

/-- The values of `hwMajor` and `hwMinor` after `hwMajor /= NO_OF_SAMPLES` and
`hwMinor /= NO_OF_SAMPLES`: what `getHwValue` hands to the voltage
conversion. -/
def averaged (major minor : Nat → Int) : Nat × Nat :=
  let acc := sampleLoop major minor NO_OF_SAMPLES
  (acc.1 / NO_OF_SAMPLES, acc.2 / NO_OF_SAMPLES)

/-- The result type `Version::HwVolt`. -/
structure HwVolt where
  major : Nat
  minor : Nat
deriving DecidableEq, Repr

/-- Member function `EspVersion::getHwValue()`.  The ADC set-up calls have no
result that is used later; the calibrated conversion
`esp_adc_cal_raw_to_voltage(., &adc_chars)` of the ESP-IDF is an argument. -/
def getHwValue (esp_adc_cal_raw_to_voltage : Nat → Nat) (major minor : Nat → Int) :
    HwVolt :=
  let hw := averaged major minor
  { major := esp_adc_cal_raw_to_voltage hw.1
    minor := esp_adc_cal_raw_to_voltage hw.2 }

end EspVersion

/-! ## Invariant and example runs -/

/-- The timing fields agree with the record of the last work invocation:
`_nextCallTime` is the reading taken when the work function returned plus the
delay it returned, and `_delayTime` is that delay, or zero once `resume()` has
been called since. -/
def timingAgrees (m : Module) : Option LastWork → Prop
  | none => True
  | some l =>
    m._nextCallTime = l.reading.add l.returned ∧
    m._delayTime = if l.resumed then Time.ofInt 0 else l.returned

/-- A run on a freshly constructed polled module: `suspend()`, then a
`taskInit` that creates task 1, then `resume()`. -/
def suspendTaskInitResume : List Op :=
  [Op.suspend, Op.taskInit demoTaskName 1024 1 (some 1), Op.resume allReady]

/-- A run on a freshly constructed polled module: a `dispatcher()` call at
t = 0 whose work function returns 1000 ms, then `resume()`. -/
def dispatchThenResume : List Op :=
  [Op.dispatcher (constWork ⟨1000⟩) ⟨0⟩ ⟨0⟩, Op.resume allReady]

/-- A run that consists of one `taskInit` that creates task 1. -/
def lateTaskInit : List Op :=
  [Op.taskInit demoTaskName 1024 1 (some 1)]

/-- A run on a freshly constructed polled module in which the first `taskInit`
fails to create a task, the second creates task 7 and the third comes too
late to create anything. -/
def createdLate : List Op :=
  [Op.dispatcher (constWork ⟨1000⟩) ⟨0⟩ ⟨0⟩,
    Op.taskInit demoTaskName 1024 1 none,
    Op.taskInit demoTaskName 1024 1 (some 7),
    Op.taskInit demoTaskName 1024 1 (some 9)]

/-! ## Basic facts about single calls -/

theorem dispatcher_suspended (m : Module) (w : Work) (now now2 : Time)
    (hs : m._suspended = true) :
    m.dispatcher w now now2 = { ret := Time.hms 24 0 0, state := m, events := [] } := by
  simp [Module.dispatcher, hs]

theorem dispatcher_run (m : Module) (w : Work) (now now2 : Time)
    (hs : m._suspended = false)
    (hdue : (m._delayTime.isZero || now.ge m._nextCallTime) = true) :
    m.dispatcher w now now2 =
      { ret := (w m).1
        state := { (w m).2 with _delayTime := (w m).1, _nextCallTime := now2.add (w m).1 }
        events := [Event.workCall] } := by
  simp only [Module.dispatcher, hs, hdue]
  simp

theorem dispatcher_early (m : Module) (w : Work) (now now2 : Time)
    (hs : m._suspended = false) (hz : m._delayTime.isZero = false)
    (he : now.ge m._nextCallTime = false) :
    m.dispatcher w now now2 =
      { ret := if (now.sub m._nextCallTime).toMsec ≥ 0 then now.sub m._nextCallTime
               else Time.ofInt 0
        state := m
        events := [] } := by
  simp [Module.dispatcher, hs, hz, he]

theorem suspend_polled (m : Module) (hp : m.xHandle = none) :
    m.suspend = { state := { m with _suspended := true }, events := [] } := by
  simp [Module.suspend, hp]

theorem resume_polled (m : Module) (q : TaskHandle → eTaskState) (hp : m.xHandle = none) :
    m.resume q =
      { state := { m with _delayTime := Time.ofInt 0, _suspended := false }, events := [] } := by
  simp [Module.resume, hp]

theorem dispatcher_availability (m : Module) (w : Work) (now now2 : Time)
    (hw : ∀ x : Module, (w x).2._availability = x._availability) :
    (m.dispatcher w now now2).state._availability = m._availability := by
  unfold Module.dispatcher
  split_ifs <;> simp [hw]

theorem suspend_availability (m : Module) :
    m.suspend.state._availability = m._availability := by
  unfold Module.suspend
  split_ifs <;> rfl

theorem resume_availability (m : Module) (q : TaskHandle → eTaskState) :
    (m.resume q).state._availability = m._availability := by
  unfold Module.resume
  cases m.xHandle with
  | none => rfl
  | some h =>
    simp only
    split_ifs <;> rfl

theorem apply_availability (m : Module) (op : Op) (h : op.isScheduling) :
    (op.apply m)._availability = m._availability := by
  cases op with
  | dispatcher w now now2 => exact dispatcher_availability m w now now2 h
  | suspend => exact suspend_availability m
  | resume q => exact resume_availability m q
  | setAvailability v => exact absurd h (by simp [Op.isScheduling])
  | taskInit n s p c => exact absurd h (by simp [Op.isScheduling])

theorem runOps_availability (ops : List Op) :
    ∀ m : Module, (∀ op ∈ ops, op.isScheduling) →
      (runOps m ops)._availability = m._availability := by
  induction ops with
  | nil => intro m _; rfl
  | cons op rest ih =>
    intro m h
    have h1 : op.isScheduling := h op (List.mem_cons_self op rest)
    have h2 : ∀ o ∈ rest, o.isScheduling := fun o ho => h o (List.mem_cons_of_mem op ho)
    show (runOps (op.apply m) rest)._availability = m._availability
    rw [ih (op.apply m) h2, apply_availability m op h1]

/-! ## Facts about the timing fields and the task handle -/

theorem dispatcher_not_invoked (m : Module) (w : Work) (now now2 : Time)
    (h : ¬ 0 < workCalls (m.dispatcher w now now2).events) :
    (m.dispatcher w now now2).state = m := by
  unfold Module.dispatcher at h ⊢
  split_ifs at h ⊢
  · rfl
  · simp [workCalls] at h
  · rfl

theorem dispatcher_invoked_timing (m : Module) (w : Work) (now now2 : Time)
    (h : 0 < workCalls (m.dispatcher w now now2).events) :
    (m.dispatcher w now now2).state._delayTime = (w m).1 ∧
    (m.dispatcher w now now2).state._nextCallTime = now2.add (w m).1 := by
  unfold Module.dispatcher at h ⊢
  split_ifs at h ⊢
  · simp [workCalls] at h
  · exact ⟨rfl, rfl⟩
  · simp [workCalls] at h

theorem suspend_timing (m : Module) :
    m.suspend.state._delayTime = m._delayTime ∧
    m.suspend.state._nextCallTime = m._nextCallTime := by
  unfold Module.suspend
  split_ifs <;> exact ⟨rfl, rfl⟩

theorem resume_timing (m : Module) (q : TaskHandle → eTaskState) :
    (m.resume q).state._delayTime = Time.ofInt 0 ∧
    (m.resume q).state._nextCallTime = m._nextCallTime := by
  unfold Module.resume
  cases m.xHandle with
  | none => exact ⟨rfl, rfl⟩
  | some h =>
    simp only
    split_ifs <;> exact ⟨rfl, rfl⟩

theorem taskInit_timing (m : Module) (name : String) (stack prior : Nat)
    (created : Option TaskHandle) :
    (m.taskInit name stack prior created).state._delayTime = m._delayTime ∧
    (m.taskInit name stack prior created).state._nextCallTime = m._nextCallTime := by
  unfold Module.taskInit
  split_ifs <;> exact ⟨rfl, rfl⟩

theorem apply_timingAgrees (m : Module) (g : Option LastWork) (op : Op)
    (h : timingAgrees m g) : timingAgrees (op.apply m) (op.track m g) := by
  cases op with
  | dispatcher w now now2 =>
    by_cases hc : 0 < workCalls (m.dispatcher w now now2).events
    · have ht := dispatcher_invoked_timing m w now now2 hc
      simp only [Op.track, if_pos hc, Op.apply, timingAgrees]
      exact ⟨ht.2, by simpa using ht.1⟩
    · have hst := dispatcher_not_invoked m w now now2 hc
      simp only [Op.track, if_neg hc, Op.apply, hst]
      exact h
  | suspend =>
    have ht := suspend_timing m
    cases g with
    | none => trivial
    | some l =>
      simp only [Op.track, Op.apply, timingAgrees] at h ⊢
      rw [ht.1, ht.2]
      exact h
  | resume q =>
    have ht := resume_timing m q
    cases g with
    | none => trivial
    | some l =>
      simp only [Op.track, Op.apply, timingAgrees] at h ⊢
      rw [ht.1, ht.2]
      exact ⟨h.1, by simp⟩
  | setAvailability v =>
    cases g with
    | none => trivial
    | some l => exact h
  | taskInit n st p c =>
    have ht := taskInit_timing m n st p c
    cases g with
    | none => trivial
    | some l =>
      simp only [Op.track, Op.apply, timingAgrees] at h ⊢
      rw [ht.1, ht.2]
      exact h

theorem runOps_timingAgrees (ops : List Op) :
    ∀ (m : Module) (g : Option LastWork), timingAgrees m g →
      timingAgrees (runOps m ops) (trackOps m g ops) := by
  induction ops with
  | nil => intro m g h; exact h
  | cons op rest ih =>
    intro m g h
    exact ih (op.apply m) (op.track m g) (apply_timingAgrees m g op h)

theorem apply_handle_kept (m : Module) (op : Op) (hw : op.workKeepsHandle)
    (h : TaskHandle) (hx : m.xHandle = some h) : (op.apply m).xHandle = some h := by
  cases op with
  | dispatcher w now now2 =>
    simp only [Op.apply]
    unfold Module.dispatcher
    split_ifs
    · exact hx
    · show (w m).2.xHandle = some h
      rw [hw m]; exact hx
    · exact hx
  | suspend =>
    simp only [Op.apply]
    unfold Module.suspend
    split_ifs <;> exact hx
  | resume q =>
    simp only [Op.apply]
    unfold Module.resume
    simp only [hx]
    split_ifs <;> rfl
  | setAvailability v => exact hx
  | taskInit n st p c =>
    simp only [Op.apply]
    unfold Module.taskInit
    simp [hx]

theorem apply_handle_same (m : Module) (op : Op) (hw : op.workKeepsHandle)
    (ht : op.isTaskInit = false) : (op.apply m).xHandle = m.xHandle := by
  cases op with
  | dispatcher w now now2 =>
    simp only [Op.apply]
    unfold Module.dispatcher
    split_ifs
    · rfl
    · exact hw m
    · rfl
  | suspend =>
    simp only [Op.apply]
    unfold Module.suspend
    split_ifs <;> rfl
  | resume q =>
    simp only [Op.apply]
    unfold Module.resume
    cases m.xHandle with
    | none => rfl
    | some h =>
      simp only
      split_ifs <;> rfl
  | setAvailability v => rfl
  | taskInit n st p c => simp [Op.isTaskInit] at ht

theorem runOps_handle_kept (ops : List Op) :
    ∀ (m : Module) (h : TaskHandle), (∀ op ∈ ops, op.workKeepsHandle) →
      m.xHandle = some h → (runOps m ops).xHandle = some h := by
  induction ops with
  | nil => intro m h _ hx; exact hx
  | cons op rest ih =>
    intro m h hw hx
    exact ih (op.apply m) h (fun o ho => hw o (List.mem_cons_of_mem op ho))
      (apply_handle_kept m op (hw op (List.mem_cons_self op rest)) h hx)

theorem runOps_handle_same (ops : List Op) :
    ∀ (m : Module), (∀ op ∈ ops, op.workKeepsHandle) →
      (∀ op ∈ ops, op.isTaskInit = false) → (runOps m ops).xHandle = m.xHandle := by
  induction ops with
  | nil => intro m _ _; rfl
  | cons op rest ih =>
    intro m hw ht
    have h1 := apply_handle_same m op (hw op (List.mem_cons_self op rest))
      (ht op (List.mem_cons_self op rest))
    have h2 := ih (op.apply m) (fun o ho => hw o (List.mem_cons_of_mem op ho))
      (fun o ho => ht o (List.mem_cons_of_mem op ho))
    show (runOps (op.apply m) rest).xHandle = m.xHandle
    rw [h2, h1]

theorem apply_handle_created (m : Module) (op : Op) (hw : op.workKeepsHandle)
    (h : TaskHandle) (hx : m.xHandle = none) (hx2 : (op.apply m).xHandle = some h) :
    ∃ n s p, op = Op.taskInit n s p (some h) := by
  cases hb : op.isTaskInit with
  | false =>
    have hsame := apply_handle_same m op hw hb
    rw [hx2, hx] at hsame
    exact absurd hsame (by simp)
  | true =>
    cases op with
    | dispatcher w now now2 => simp [Op.isTaskInit] at hb
    | suspend => simp [Op.isTaskInit] at hb
    | resume q => simp [Op.isTaskInit] at hb
    | setAvailability v => simp [Op.isTaskInit] at hb
    | taskInit n s p c =>
      cases c with
      | none =>
        simp only [Op.apply, Module.taskInit, hx, if_true] at hx2
        exact absurd hx2 (by simp)
      | some t =>
        simp only [Op.apply, Module.taskInit, hx, if_true] at hx2
        have ht : t = h := Option.some.inj hx2
        exact ⟨n, s, p, by rw [ht]⟩

theorem taskInit_creates (m : Module) (n : String) (s p : Nat) (h : TaskHandle)
    (hx : m.xHandle = none) :
    (m.taskInit n s p (some h)).events = [Event.xTaskCreate n s p] ∧
    (m.taskInit n s p (some h)).state.xHandle = some h := by
  simp [Module.taskInit, hx]

theorem runOps_handle_created (ops : List Op) :
    ∀ (m : Module) (h : TaskHandle), (∀ op ∈ ops, op.workKeepsHandle) →
      m.xHandle = none → (runOps m ops).xHandle = some h →
      ∃ (before after : List Op) (n : String) (s p : Nat),
        ops = before ++ Op.taskInit n s p (some h) :: after ∧
        (runOps m before).xHandle = none ∧
        ((runOps m before).taskInit n s p (some h)).events = [Event.xTaskCreate n s p] ∧
        ((runOps m before).taskInit n s p (some h)).state.xHandle = some h := by
  induction ops with
  | nil =>
    intro m h _ hx hfin
    have hm : (runOps m []).xHandle = m.xHandle := rfl
    rw [hm, hx] at hfin
    exact absurd hfin (by simp)
  | cons op rest ih =>
    intro m h hw hx hfin
    have hwop := hw op (List.mem_cons_self op rest)
    have hwrest : ∀ o ∈ rest, o.workKeepsHandle :=
      fun o ho => hw o (List.mem_cons_of_mem op ho)
    have hstep : runOps m (op :: rest) = runOps (op.apply m) rest := rfl
    rw [hstep] at hfin
    cases hx1 : (op.apply m).xHandle with
    | none =>
      obtain ⟨before, after, n, s, p, hops, hnone, hev, hst⟩ :=
        ih (op.apply m) h hwrest hx1 hfin
      refine ⟨op :: before, after, n, s, p, ?_, hnone, hev, hst⟩
      rw [hops]; rfl
    | some t =>
      have hkept := runOps_handle_kept rest (op.apply m) t hwrest hx1
      rw [hkept] at hfin
      have ht : t = h := Option.some.inj hfin
      rw [ht] at hx1
      obtain ⟨n, s, p, hop⟩ := apply_handle_created m op hwop h hx hx1
      have hc := taskInit_creates m n s p h hx
      exact ⟨[], rest, n, s, p, by rw [hop]; rfl, hx, hc.1, hc.2⟩

theorem resume_then_dispatcher_invokes (m : Module) (q : TaskHandle → eTaskState)
    (w : Work) (now now2 : Time) (h : m.xHandle = none ∨ m._suspended = false) :
    workCalls ((m.resume q).state.dispatcher w now now2).events = 1 := by
  have hz : (m.resume q).state._delayTime.isZero = true := by
    rw [(resume_timing m q).1]; rfl
  have hs : (m.resume q).state._suspended = false := by
    unfold Module.resume
    cases hx : m.xHandle with
    | none => rfl
    | some t =>
      have hsus : m._suspended = false := by
        rcases h with h | h
        · rw [hx] at h; exact absurd h (by simp)
        · exact h
      simp only
      split_ifs <;> exact hsus
  rw [dispatcher_run _ w now now2 hs (by simp [hz])]
  rfl

/-! ## Facts about the task-bound loop -/

theorem dispatcher_events (m : Module) (w : Work) (now now2 : Time) :
    (m.dispatcher w now now2).events = [] ∨
    (m.dispatcher w now now2).events = [Event.workCall] := by
  unfold Module.dispatcher
  split_ifs
  · exact Or.inl rfl
  · exact Or.inr rfl
  · exact Or.inl rfl

theorem taskIteration_counts (ticks : Int → Nat) (m : Module) (w : Work)
    (now now2 : Time) :
    waitCalls (m.taskIteration ticks w now now2).events = 1 ∧
    workCalls (m.taskIteration ticks w now now2).events ≤ 1 := by
  unfold Module.taskIteration
  rcases dispatcher_events m w now now2 with h | h <;>
    simp [h, waitCalls, workCalls]

theorem taskLoop_append (ticks : Int → Nat) (xs ys : List (Work × Time × Time)) :
    ∀ m : Module, m.taskLoop ticks (xs ++ ys) =
      { state := ((m.taskLoop ticks xs).state.taskLoop ticks ys).state
        events := (m.taskLoop ticks xs).events ++
          ((m.taskLoop ticks xs).state.taskLoop ticks ys).events } := by
  induction xs with
  | nil => intro m; simp [Module.taskLoop]
  | cons x rest ih =>
    intro m
    obtain ⟨w, now, now2⟩ := x
    have h := ih (m.taskIteration ticks w now now2).state
    show Module.taskLoop ticks m ((w, now, now2) :: (rest ++ ys)) = _
    simp only [Module.taskLoop, h, List.append_assoc]

theorem taskLoop_counts (ticks : Int → Nat) (env : List (Work × Time × Time)) :
    ∀ m : Module, waitCalls (m.taskLoop ticks env).events = env.length ∧
      workCalls (m.taskLoop ticks env).events ≤ env.length := by
  induction env with
  | nil => intro m; simp [Module.taskLoop, waitCalls, workCalls]
  | cons x rest ih =>
    intro m
    obtain ⟨w, now, now2⟩ := x
    have h1 := taskIteration_counts ticks m w now now2
    have h2 := ih (m.taskIteration ticks w now now2).state
    simp only [Module.taskLoop, List.length_cons]
    simp only [waitCalls, workCalls, List.countP_append, List.count_append] at h1 h2 ⊢
    omega

/-! ## Facts about the sampling loop -/

theorem readings_sum_bounds (f : Nat → Int) (k : Nat)
    (h : ∀ i < k, 0 ≤ f i ∧ f i ≤ 4095) :
    0 ≤ ∑ i ∈ Finset.range k, f i ∧ ∑ i ∈ Finset.range k, f i ≤ 4095 * (k : Int) := by
  induction k with
  | zero => simp
  | succ n ih =>
    have hn := ih (fun i hi => h i (Nat.lt_succ_of_lt hi))
    have hl := h n (Nat.lt_succ_self n)
    rw [Finset.sum_range_succ]
    push_cast
    omega

theorem addU32_exact (acc : Nat) (r : Int) (h0 : 0 ≤ (acc : Int) + r)
    (h1 : (acc : Int) + r < 2 ^ 32) :
    ((EspVersion.addU32 acc r : Nat) : Int) = (acc : Int) + r := by
  unfold EspVersion.addU32
  rw [Int.emod_eq_of_lt h0 h1, Int.toNat_of_nonneg h0]

theorem sampleLoop_exact (major minor : Nat → Int) (k : Nat)
    (hk : k ≤ EspVersion.NO_OF_SAMPLES)
    (hmaj : ∀ i < EspVersion.NO_OF_SAMPLES, 0 ≤ major i ∧ major i ≤ 4095)
    (hmin : ∀ i < EspVersion.NO_OF_SAMPLES, 0 ≤ minor i ∧ minor i ≤ 4095) :
    ((EspVersion.sampleLoop major minor k).1 : Int) = ∑ i ∈ Finset.range k, major i ∧
    ((EspVersion.sampleLoop major minor k).2 : Int) = ∑ i ∈ Finset.range k, minor i := by
  induction k with
  | zero => simp [EspVersion.sampleLoop]
  | succ n ih =>
    have hn : n < EspVersion.NO_OF_SAMPLES := hk
    have hprev := ih (Nat.le_of_lt hn)
    have b1 := readings_sum_bounds major n (fun i hi => hmaj i (Nat.lt_trans hi hn))
    have b2 := readings_sum_bounds minor n (fun i hi => hmin i (Nat.lt_trans hi hn))
    have r1 := hmaj n hn
    have r2 := hmin n hn
    have hn64 : (n : Int) < 64 := by
      have : n < 64 := hn
      omega
    simp only [EspVersion.sampleLoop, Finset.sum_range_succ]
    rw [addU32_exact _ _ (by rw [hprev.1]; omega) (by rw [hprev.1]; norm_num; omega),
      addU32_exact _ _ (by rw [hprev.2]; omega) (by rw [hprev.2]; norm_num; omega),
      hprev.1, hprev.2]
    exact ⟨rfl, rfl⟩

/-! ## Claims -/

/-- C1 (the code at the failing input).  In the spec's scenario the module is
not suspended, its delay is 1000 ms and its next call time is 1000, so a call
at t = 500 is early and 500 ms remain; `dispatcher()` computes
`now - _nextCallTime = -500`, finds it negative, and returns zero instead of
the remaining 500 ms. -/
theorem dispatcher_early_call_returns_zero_at_500 :
    scenarioAfterFirst._suspended = false ∧
    scenarioAfterFirst._delayTime.isZero = false ∧
    Time.ge ⟨500⟩ scenarioAfterFirst._nextCallTime = false ∧
    scenarioAfterFirst._nextCallTime.sub ⟨500⟩ = ⟨500⟩ ∧
    (scenarioAfterFirst.dispatcher (constWork ⟨1000⟩) ⟨500⟩ ⟨500⟩).ret = ⟨0⟩ := by
  decide

/-- C2.  On a module that is not suspended, a `dispatcher()` call at or after
`nextCallTime` invokes the work function exactly once, returns exactly the
duration the work function returned, and afterwards `delayTime()` is that same
duration. -/
theorem dispatcher_due_invokes_work_once (m : Module) (w : Work) (now now2 : Time)
    (hs : m._suspended = false) (hdue : now.ge m._nextCallTime = true) :
    workCalls (m.dispatcher w now now2).events = 1 ∧
    (m.dispatcher w now now2).ret = (w m).1 ∧
    (m.dispatcher w now now2).state.delayTime = (w m).1 := by
  rw [dispatcher_run m w now now2 hs (by simp [hdue])]
  exact ⟨rfl, rfl, rfl⟩

theorem dispatcher_due_invokes_work_once_witness :
    scenarioAfterFirst._suspended = false ∧
    Time.ge ⟨1200⟩ scenarioAfterFirst._nextCallTime = true ∧
    workCalls (scenarioAfterFirst.dispatcher (constWork ⟨1000⟩) ⟨1200⟩ ⟨1200⟩).events = 1 ∧
    (scenarioAfterFirst.dispatcher (constWork ⟨1000⟩) ⟨1200⟩ ⟨1200⟩).ret
      = (constWork ⟨1000⟩ scenarioAfterFirst).1 ∧
    (scenarioAfterFirst.dispatcher (constWork ⟨1000⟩) ⟨1200⟩ ⟨1200⟩).state.delayTime
      = (constWork ⟨1000⟩ scenarioAfterFirst).1 :=
  ⟨by decide, by decide,
    dispatcher_due_invokes_work_once scenarioAfterFirst (constWork ⟨1000⟩) ⟨1200⟩ ⟨1200⟩
      (by decide) (by decide)⟩

/-- C3.  In polled mode (no task handle), after `suspend()` a `dispatcher()`
call invokes the work function zero times, returns the 24-hour sentinel
`Time(24,0,0)`, and leaves `delayTime` and `nextCallTime` as they were, for
every clock reading and every earlier `delayTime` (zero included). -/
theorem suspend_then_dispatcher_is_idle (m : Module) (w : Work) (now now2 : Time)
    (hp : m.xHandle = none) :
    workCalls (m.suspend.state.dispatcher w now now2).events = 0 ∧
    (m.suspend.state.dispatcher w now now2).ret = Time.hms 24 0 0 ∧
    (m.suspend.state.dispatcher w now now2).state = m.suspend.state ∧
    (m.suspend.state.dispatcher w now now2).state.delayTime = m.delayTime ∧
    (m.suspend.state.dispatcher w now now2).state.nextCallTime = m.nextCallTime := by
  rw [suspend_polled m hp, dispatcher_suspended _ w now now2 rfl]
  exact ⟨rfl, rfl, rfl, rfl, rfl⟩

theorem suspend_then_dispatcher_is_idle_witness :
    Module.new.xHandle = none ∧
    workCalls (Module.new.suspend.state.dispatcher (constWork ⟨1000⟩) ⟨0⟩ ⟨0⟩).events = 0 ∧
    (Module.new.suspend.state.dispatcher (constWork ⟨1000⟩) ⟨0⟩ ⟨0⟩).ret = Time.hms 24 0 0 ∧
    (Module.new.suspend.state.dispatcher (constWork ⟨1000⟩) ⟨0⟩ ⟨0⟩).state
      = Module.new.suspend.state ∧
    (Module.new.suspend.state.dispatcher (constWork ⟨1000⟩) ⟨0⟩ ⟨0⟩).state.delayTime
      = Module.new.delayTime ∧
    (Module.new.suspend.state.dispatcher (constWork ⟨1000⟩) ⟨0⟩ ⟨0⟩).state.nextCallTime
      = Module.new.nextCallTime :=
  ⟨rfl, suspend_then_dispatcher_is_idle Module.new (constWork ⟨1000⟩) ⟨0⟩ ⟨0⟩ rfl⟩

/-- C4.  In polled mode, after `suspend()` followed by `resume()` the very next
`dispatcher()` call invokes the work function exactly once, for every clock
reading, readings earlier than `nextCallTime` included. -/
theorem suspend_resume_then_dispatcher_invokes_once (m : Module) (w : Work)
    (q : TaskHandle → eTaskState) (now now2 : Time) (hp : m.xHandle = none) :
    workCalls (((m.suspend.state).resume q).state.dispatcher w now now2).events = 1 := by
  have hx : m.suspend.state.xHandle = none := by rw [suspend_polled m hp]; exact hp
  rw [resume_polled _ q hx,
    dispatcher_run _ w now now2 rfl (by simp [Time.isZero, Time.ofInt])]
  rfl

theorem suspend_resume_then_dispatcher_invokes_once_witness :
    scenarioAfterFirst.xHandle = none ∧
    Time.ge ⟨500⟩ scenarioAfterFirst._nextCallTime = false ∧
    workCalls (((scenarioAfterFirst.suspend.state).resume
      (fun _ => eTaskState.eReady)).state.dispatcher (constWork ⟨1000⟩) ⟨500⟩ ⟨500⟩).events
      = 1 :=
  ⟨by decide, by decide,
    suspend_resume_then_dispatcher_invokes_once scenarioAfterFirst (constWork ⟨1000⟩)
      (fun _ => eTaskState.eReady) ⟨500⟩ ⟨500⟩ (by decide)⟩

/-- C5.  On a module that is not suspended and has a non-zero `delayTime`, a
`dispatcher()` call at a clock reading before `nextCallTime` invokes the work
function zero times and leaves every field of the module unchanged. -/
theorem dispatcher_early_call_leaves_state (m : Module) (w : Work) (now now2 : Time)
    (hs : m._suspended = false) (hz : m._delayTime.isZero = false)
    (he : now.ge m._nextCallTime = false) :
    workCalls (m.dispatcher w now now2).events = 0 ∧
    (m.dispatcher w now now2).state = m := by
  rw [dispatcher_early m w now now2 hs hz he]
  exact ⟨rfl, rfl⟩

theorem dispatcher_early_call_leaves_state_witness :
    scenarioAfterFirst._suspended = false ∧
    scenarioAfterFirst._delayTime.isZero = false ∧
    Time.ge ⟨500⟩ scenarioAfterFirst._nextCallTime = false ∧
    workCalls (scenarioAfterFirst.dispatcher (constWork ⟨1000⟩) ⟨500⟩ ⟨500⟩).events = 0 ∧
    (scenarioAfterFirst.dispatcher (constWork ⟨1000⟩) ⟨500⟩ ⟨500⟩).state
      = scenarioAfterFirst :=
  ⟨by decide, by decide, by decide,
    dispatcher_early_call_leaves_state scenarioAfterFirst (constWork ⟨1000⟩) ⟨500⟩ ⟨500⟩
      (by decide) (by decide) (by decide)⟩

/-- C6.  The default (polled) constructor sets `delayTime` to zero and
`suspended` to false, so for every work function and every clock reading the
first `dispatcher()` call on a freshly built module invokes the work function
exactly once. -/
theorem first_dispatcher_after_construction_invokes_once (w : Work) (now now2 : Time) :
    Module.new._delayTime.isZero = true ∧
    Module.new._suspended = false ∧
    workCalls (Module.new.dispatcher w now now2).events = 1 := by
  refine ⟨by decide, rfl, ?_⟩
  rw [dispatcher_run Module.new w now now2 rfl (by simp [Module.new, Time.isZero, Time.ofInt])]
  rfl

/-- C7.  Every `dispatcher()` call that invokes the work function leaves
`nextCallTime` equal to the clock reading taken after the work function
returned (`now2`, not the earlier reading `now`) plus the newly returned
`delayTime`. -/
theorem dispatcher_sets_nextCallTime_from_second_reading (m : Module) (w : Work)
    (now now2 : Time) (hcall : 0 < workCalls (m.dispatcher w now now2).events) :
    (m.dispatcher w now now2).state.delayTime = (w m).1 ∧
    (m.dispatcher w now now2).state.nextCallTime = now2.add (w m).1 := by
  unfold Module.dispatcher at hcall ⊢
  split_ifs at hcall ⊢
  · simp [workCalls] at hcall
  · exact ⟨rfl, rfl⟩
  · simp [workCalls] at hcall

theorem dispatcher_sets_nextCallTime_from_second_reading_witness :
    0 < workCalls (scenarioAfterFirst.dispatcher (constWork ⟨1000⟩) ⟨1200⟩ ⟨1200⟩).events ∧
    (scenarioAfterFirst.dispatcher (constWork ⟨1000⟩) ⟨1200⟩ ⟨1200⟩).state.nextCallTime
      = ⟨2200⟩ ∧
    0 < workCalls (scenarioAfterFirst.dispatcher (constWork ⟨1000⟩) ⟨1200⟩ ⟨1207⟩).events ∧
    (scenarioAfterFirst.dispatcher (constWork ⟨1000⟩) ⟨1200⟩ ⟨1207⟩).state.nextCallTime
      = Time.add ⟨1207⟩ ⟨1000⟩ :=
  ⟨by decide,
    (dispatcher_sets_nextCallTime_from_second_reading scenarioAfterFirst (constWork ⟨1000⟩)
      ⟨1200⟩ ⟨1200⟩ (by decide)).2,
    by decide,
    (dispatcher_sets_nextCallTime_from_second_reading scenarioAfterFirst (constWork ⟨1000⟩)
      ⟨1200⟩ ⟨1207⟩ (by decide)).2⟩

/-- C8.  `isAvailable()` is true on a freshly constructed module (either
constructor); after `setAvailability(v)` it returns exactly `v`; and every
sequence of `suspend()`, `resume()` and `dispatcher()` calls whose work
functions do not change the availability flag leaves its value unchanged. -/
theorem isAvailable_reflects_last_setAvailability :
    (Module.new.isAvailable = true ∧
      ∀ (name : String) (stack prior : Nat) (uninit created : Option TaskHandle),
        (Module.newTask name stack prior uninit created).state.isAvailable = true) ∧
    (∀ (m : Module) (v : Bool), (m.setAvailability v).isAvailable = v) ∧
    (∀ (m : Module) (ops : List Op), (∀ op ∈ ops, op.isScheduling) →
      (runOps m ops).isAvailable = m.isAvailable) :=
  ⟨⟨rfl, fun _ _ _ _ _ => rfl⟩, fun _ _ => rfl, fun m ops h => runOps_availability ops m h⟩

theorem isAvailable_reflects_last_setAvailability_witness :
    (runOps (Module.new.setAvailability false)
      [Op.suspend, Op.dispatcher (constWork ⟨1000⟩) ⟨0⟩ ⟨0⟩,
        Op.resume (fun _ => eTaskState.eReady),
        Op.dispatcher (constWork ⟨1000⟩) ⟨5⟩ ⟨6⟩]).isAvailable = false :=
  isAvailable_reflects_last_setAvailability.2.2 (Module.new.setAvailability false) _
    (by
      intro op hop
      simp only [List.mem_cons, List.mem_singleton, List.not_mem_nil, or_false] at hop
      rcases hop with rfl | rfl | rfl | rfl
      · trivial
      · intro x; rfl
      · trivial
      · intro x; rfl)

/-- C9.  Whenever the work function returns a non-negative duration, the
duration `dispatcher()` returns is non-negative, for every module state and
every pair of clock readings: on the suspended path it is the 24-hour
sentinel, on the due path the work function's value, and on the early path a
negative difference is replaced by zero. -/
theorem dispatcher_returns_nonnegative (m : Module) (w : Work) (now now2 : Time)
    (hw : 0 ≤ (w m).1.toMsec) :
    0 ≤ (m.dispatcher w now now2).ret.toMsec := by
  cases hs : m._suspended with
  | true =>
    rw [dispatcher_suspended m w now now2 hs]
    simp [Time.hms, Time.toMsec]
  | false =>
    cases hdue : (m._delayTime.isZero || now.ge m._nextCallTime) with
    | true =>
      rw [dispatcher_run m w now now2 hs hdue]
      exact hw
    | false =>
      rw [Bool.or_eq_false_iff] at hdue
      rw [dispatcher_early m w now now2 hs hdue.1 hdue.2]
      show 0 ≤ (if (now.sub m._nextCallTime).toMsec ≥ 0 then now.sub m._nextCallTime
        else Time.ofInt 0).toMsec
      split_ifs with h3
      · exact h3
      · simp [Time.ofInt, Time.toMsec]

theorem dispatcher_returns_nonnegative_witness :
    0 ≤ (constWork ⟨1000⟩ scenarioAfterFirst).1.toMsec ∧
    0 ≤ (scenarioAfterFirst.dispatcher (constWork ⟨1000⟩) ⟨500⟩ ⟨500⟩).ret.toMsec ∧
    (Time.sub ⟨500⟩ scenarioAfterFirst._nextCallTime).toMsec < 0 :=
  ⟨by decide,
    dispatcher_returns_nonnegative scenarioAfterFirst (constWork ⟨1000⟩) ⟨500⟩ ⟨500⟩
      (by decide),
    by decide⟩

/-- C10 (the code at the failing input).  On a module bound to task 1,
`suspend()` leaves the module as it is and makes the single runtime call
`vTaskSuspend(NULL)`; called from task 2 that call acts on task 2, the caller,
and not on task 1, the task the stored handle identifies. -/
theorem suspend_task_bound_suspends_caller :
    boundToTask1.xHandle = some 1 ∧
    boundToTask1.suspend.state = boundToTask1 ∧
    boundToTask1.suspend.events = [Event.vTaskSuspend none] ∧
    targetTask 2 none = 2 ∧
    boundToTask1.suspend.events ≠ [Event.vTaskSuspend boundToTask1.xHandle] := by
  decide

/-- C11.  `resume()` performs `_delayTime = 0` as its first step.  On a
task-bound module exactly one step follows, a call into the task runtime on
the bound task: `vTaskResume` when the runtime reports that task as suspended
and `xTaskNotifyGive` otherwise; no other field changes.  On a polled module
the only other step clears `_suspended` and no runtime call is made.  The
module and the calls `resume()` leaves behind are those of running the steps
in order. -/
theorem resume_zeroes_delay_then_acts_on_bound_task (m : Module)
    (q : TaskHandle → eTaskState) :
    (m.resumeSteps q).head? = some (Action.setDelayTime (Time.ofInt 0)) ∧
    (m.resumeSteps q).foldl Action.run { state := m, events := [] } = m.resume q ∧
    (∀ h : TaskHandle, m.xHandle = some h →
      (m.resumeSteps q).tail =
        [Action.call (if q h = eTaskState.eSuspended then Event.vTaskResume (some h)
          else Event.xTaskNotifyGive (some h))] ∧
      (m.resume q).events =
        [if q h = eTaskState.eSuspended then Event.vTaskResume (some h)
          else Event.xTaskNotifyGive (some h)] ∧
      (m.resume q).state = { m with _delayTime := Time.ofInt 0 }) ∧
    (m.xHandle = none →
      (m.resumeSteps q).tail = [Action.setSuspended false] ∧
      (m.resume q).events = [] ∧
      (m.resume q).state = { m with _delayTime := Time.ofInt 0, _suspended := false }) := by
  refine ⟨rfl, ?_, ?_, ?_⟩
  · unfold Module.resumeSteps Module.resume
    cases hx : m.xHandle with
    | none => simp [Action.run, hx]
    | some h =>
      by_cases hq : q h = eTaskState.eSuspended <;> simp [Action.run, hx, hq]
  · intro h hx
    unfold Module.resumeSteps Module.resume
    by_cases hq : q h = eTaskState.eSuspended <;> simp [hx, hq]
  · intro hx
    unfold Module.resumeSteps Module.resume
    simp [hx]

theorem resume_zeroes_delay_then_acts_on_bound_task_witness :
    (boundToTask1.resumeSteps (fun _ => eTaskState.eSuspended)).tail
      = [Action.call (Event.vTaskResume (some 1))] ∧
    (boundToTask1.resume (fun _ => eTaskState.eSuspended)).events
      = [Event.vTaskResume (some 1)] ∧
    (boundToTask1.resume (fun _ => eTaskState.eSuspended)).state
      = { boundToTask1 with _delayTime := Time.ofInt 0 } :=
  (resume_zeroes_delay_then_acts_on_bound_task boundToTask1
    (fun _ => eTaskState.eSuspended)).2.2.1 1 rfl

/-- C12.  On a module that already has a task handle, `taskInit(name, stack,
prior)` makes no call (it creates no task) and leaves the handle and every
other field unchanged; whenever `taskInit` does call `xTaskCreate`, the handle
was absent. -/
theorem taskInit_with_handle_is_noop (m : Module) (name : String) (stack prior : Nat)
    (created : Option TaskHandle) :
    (m.xHandle ≠ none →
      (m.taskInit name stack prior created).events = [] ∧
      (m.taskInit name stack prior created).state = m) ∧
    ((m.taskInit name stack prior created).events ≠ [] →
      m.xHandle = none ∧
      (m.taskInit name stack prior created).events
        = [Event.xTaskCreate name stack prior]) := by
  unfold Module.taskInit
  by_cases hx : m.xHandle = none <;> simp [hx]

theorem taskInit_with_handle_is_noop_witness :
    (boundToTask1.taskInit demoTaskName 1024 1 (some 2)).events = [] ∧
    (boundToTask1.taskInit demoTaskName 1024 1 (some 2)).state = boundToTask1 :=
  (taskInit_with_handle_is_noop boundToTask1 demoTaskName 1024 1 (some 2)).1 (by decide)

/-- C13.  In polled mode `suspend()` is idempotent: suspending twice leaves the
same module as suspending once, and `suspend()` changes no field other than
the suspended flag (and makes no call). -/
theorem suspend_polled_idempotent (m : Module) (hp : m.xHandle = none) :
    m.suspend.state.suspend.state = m.suspend.state ∧
    m.suspend.state = { m with _suspended := true } ∧
    m.suspend.events = [] ∧
    m.suspend.state.suspend.events = [] := by
  have h1 := suspend_polled m hp
  have hx : m.suspend.state.xHandle = none := by rw [h1]; exact hp
  have h2 := suspend_polled m.suspend.state hx
  rw [h2, h1]
  exact ⟨rfl, rfl, rfl, rfl⟩

theorem suspend_polled_idempotent_witness :
    scenarioAfterFirst.xHandle = none ∧
    scenarioAfterFirst.suspend.state.suspend.state = scenarioAfterFirst.suspend.state ∧
    scenarioAfterFirst.suspend.state = { scenarioAfterFirst with _suspended := true } ∧
    scenarioAfterFirst.suspend.events = [] ∧
    scenarioAfterFirst.suspend.state.suspend.events = [] :=
  ⟨by decide, suspend_polled_idempotent scenarioAfterFirst (by decide)⟩

/-- C14 (the code at the failing input).  A freshly constructed polled module
is suspended, then given task 1 by `taskInit`, then resumed.  `resume()` takes
the task-bound branch, which does not clear `_suspended`, so the module is
still suspended and the next `dispatcher()` call returns the 24-hour sentinel
without invoking the work function. -/
theorem resume_after_suspend_and_taskInit_does_not_dispatch :
    (runOps Module.new suspendTaskInitResume)._suspended = true ∧
    (runOps Module.new suspendTaskInitResume).xHandle = some 1 ∧
    (runOps Module.new suspendTaskInitResume)._delayTime.isZero = true ∧
    workCalls ((runOps Module.new suspendTaskInitResume).dispatcher
      (constWork ⟨1000⟩) ⟨5⟩ ⟨5⟩).events = 0 ∧
    ((runOps Module.new suspendTaskInitResume).dispatcher
      (constWork ⟨1000⟩) ⟨5⟩ ⟨5⟩).ret = Time.hms 24 0 0 := by
  decide

/-- C15 (counterexample).  After a dispatch at t = 0 that returned 1000 ms,
`resume()` changes `delayTime` (to zero) and does not assign `nextCallTime`:
the last work invocation was at reading 0 and the current `delayTime` is 0,
yet `nextCallTime` is still 1000. -/
theorem resume_changes_delayTime_alone :
    (scenarioAfterFirst.resume allReady).state._delayTime ≠ scenarioAfterFirst._delayTime ∧
    (scenarioAfterFirst.resume allReady).state._nextCallTime
      = scenarioAfterFirst._nextCallTime ∧
    trackOps Module.new none dispatchThenResume
      = some { reading := ⟨0⟩, returned := ⟨1000⟩, resumed := true } ∧
    (runOps Module.new dispatchThenResume)._nextCallTime
      ≠ Time.add ⟨0⟩ (runOps Module.new dispatchThenResume)._delayTime := by
  decide

/-- C15 (amended).  Every call other than `resume()` that changes `delayTime`
is a `dispatcher()` call that invoked the work function and assigned
`nextCallTime` in the same call; `resume()` sets `delayTime` to zero and
leaves `nextCallTime` alone.  Hence in every state reached after at least one
dispatch `nextCallTime` equals the clock reading taken when the last work
invocation returned plus the delay that invocation returned, which is the
current `delayTime` as long as `resume()` has not been called since (after a
`resume()` the current `delayTime` is zero). -/
theorem nextCallTime_follows_last_work_invocation :
    (∀ (m : Module) (op : Op), op.isResume = false →
      (op.apply m)._delayTime ≠ m._delayTime →
      ∃ w now now2, op = Op.dispatcher w now now2 ∧
        0 < workCalls (m.dispatcher w now now2).events ∧
        (op.apply m)._nextCallTime = now2.add (op.apply m)._delayTime) ∧
    (∀ (m : Module) (q : TaskHandle → eTaskState),
      (m.resume q).state._delayTime = Time.ofInt 0 ∧
      (m.resume q).state._nextCallTime = m._nextCallTime) ∧
    (∀ (m : Module) (ops : List Op) (l : LastWork), trackOps m none ops = some l →
      (runOps m ops)._nextCallTime = l.reading.add l.returned ∧
      (l.resumed = false →
        (runOps m ops)._delayTime = l.returned ∧
        (runOps m ops)._nextCallTime = l.reading.add (runOps m ops)._delayTime) ∧
      (l.resumed = true → (runOps m ops)._delayTime = Time.ofInt 0)) := by
  refine ⟨?_, resume_timing, ?_⟩
  · intro m op hr hne
    cases op with
    | dispatcher w now now2 =>
      by_cases hc : 0 < workCalls (m.dispatcher w now now2).events
      · have ht := dispatcher_invoked_timing m w now now2 hc
        refine ⟨w, now, now2, rfl, hc, ?_⟩
        show (m.dispatcher w now now2).state._nextCallTime
          = now2.add (m.dispatcher w now now2).state._delayTime
        rw [ht.1, ht.2]
      · exact absurd (congrArg Module._delayTime (dispatcher_not_invoked m w now now2 hc)) hne
    | suspend => exact absurd (suspend_timing m).1 hne
    | resume q => simp [Op.isResume] at hr
    | setAvailability v => exact absurd rfl hne
    | taskInit n st p c => exact absurd (taskInit_timing m n st p c).1 hne
  · intro m ops l hl
    have h := runOps_timingAgrees ops m none trivial
    rw [hl] at h
    obtain ⟨hnext, hdelay⟩ := h
    refine ⟨hnext, ?_, ?_⟩
    · intro hres
      have hd : (runOps m ops)._delayTime = l.returned := by rw [hdelay, hres]; simp
      exact ⟨hd, by rw [hd]; exact hnext⟩
    · intro hres
      rw [hdelay, hres]; simp

theorem nextCallTime_follows_last_work_invocation_witness :
    trackOps Module.new none
        [Op.dispatcher (constWork ⟨1000⟩) ⟨0⟩ ⟨0⟩, Op.suspend, Op.resume allReady,
          Op.dispatcher (constWork ⟨250⟩) ⟨1200⟩ ⟨1207⟩,
          Op.dispatcher (constWork ⟨250⟩) ⟨1300⟩ ⟨1300⟩]
      = some { reading := ⟨1207⟩, returned := ⟨250⟩, resumed := false } ∧
    (runOps Module.new
        [Op.dispatcher (constWork ⟨1000⟩) ⟨0⟩ ⟨0⟩, Op.suspend, Op.resume allReady,
          Op.dispatcher (constWork ⟨250⟩) ⟨1200⟩ ⟨1207⟩,
          Op.dispatcher (constWork ⟨250⟩) ⟨1300⟩ ⟨1300⟩])._nextCallTime
      = Time.add ⟨1207⟩ ⟨250⟩ :=
  ⟨by decide,
    (nextCallTime_follows_last_work_invocation.2.2 Module.new _
      { reading := ⟨1207⟩, returned := ⟨250⟩, resumed := false } (by decide)).1⟩

/-- C16 (counterexample).  A module built by the default constructor has no
task handle; after one `taskInit` that creates task 1 it has one. -/
theorem taskInit_changes_mode_after_construction :
    Module.new.xHandle = none ∧
    (runOps Module.new lateTaskInit).xHandle = some 1 ∧
    ¬ ((runOps Module.new lateTaskInit).xHandle.isSome = true ↔
        Module.new.xHandle.isSome = true) := by
  decide

/-- C16 (amended).  The execution mode can change only from polled to
task-bound, and only through `taskInit`: for every module and every sequence
of `dispatcher`, `suspend`, `resume`, `setAvailability` and `taskInit` calls
whose work functions leave the handle alone, a handle present at the start is
present and the same afterwards; when the sequence contains no `taskInit` the
handle is present afterwards if and only if it was present at the start; and
a handle that is present afterwards but was absent at the start was created
by a `taskInit` of the sequence: the sequence contains a `taskInit` call, made
while the handle was still absent, that called `xTaskCreate` and stored that
very handle, the one `xTaskCreate` wrote. -/
theorem handle_changes_only_by_taskInit (m : Module) (ops : List Op)
    (hw : ∀ op ∈ ops, op.workKeepsHandle) :
    (∀ h : TaskHandle, m.xHandle = some h → (runOps m ops).xHandle = some h) ∧
    ((∀ op ∈ ops, op.isTaskInit = false) →
      (runOps m ops).xHandle = m.xHandle ∧
      ((runOps m ops).xHandle.isSome = true ↔ m.xHandle.isSome = true)) ∧
    (m.xHandle = none → (runOps m ops).xHandle ≠ none →
      ∃ op ∈ ops, op.isTaskInit = true) ∧
    (∀ h : TaskHandle, m.xHandle = none → (runOps m ops).xHandle = some h →
      ∃ (before after : List Op) (n : String) (s p : Nat),
        ops = before ++ Op.taskInit n s p (some h) :: after ∧
        (runOps m before).xHandle = none ∧
        ((runOps m before).taskInit n s p (some h)).events = [Event.xTaskCreate n s p] ∧
        ((runOps m before).taskInit n s p (some h)).state.xHandle = some h) := by
  refine ⟨fun h hx => runOps_handle_kept ops m h hw hx, ?_, ?_,
    fun h hx hfin => runOps_handle_created ops m h hw hx hfin⟩
  · intro ht
    have h := runOps_handle_same ops m hw ht
    exact ⟨h, by rw [h]⟩
  · intro hx hne
    by_contra hno
    have ht : ∀ op ∈ ops, op.isTaskInit = false := by
      intro op hop
      cases hb : op.isTaskInit with
      | false => rfl
      | true => exact absurd ⟨op, hop, hb⟩ hno
    exact hne ((runOps_handle_same ops m hw ht).trans hx)

theorem handle_changes_only_by_taskInit_witness :
    (runOps boundToTask1
      [Op.suspend, Op.taskInit demoTaskName 1024 1 (some 2), Op.resume allReady,
        Op.dispatcher (constWork ⟨1000⟩) ⟨0⟩ ⟨0⟩]).xHandle = some 1 ∧
    (runOps Module.new createdLate).xHandle = some 7 ∧
    ∃ (before after : List Op) (n : String) (s p : Nat),
      createdLate = before ++ Op.taskInit n s p (some 7) :: after ∧
      (runOps Module.new before).xHandle = none ∧
      ((runOps Module.new before).taskInit n s p (some 7)).events
        = [Event.xTaskCreate n s p] ∧
      ((runOps Module.new before).taskInit n s p (some 7)).state.xHandle = some 7 :=
  ⟨(handle_changes_only_by_taskInit boundToTask1
      [Op.suspend, Op.taskInit demoTaskName 1024 1 (some 2), Op.resume allReady,
        Op.dispatcher (constWork ⟨1000⟩) ⟨0⟩ ⟨0⟩]
      (by
        intro op hop
        simp only [List.mem_cons, List.mem_singleton, List.not_mem_nil, or_false] at hop
        rcases hop with rfl | rfl | rfl | rfl
        · trivial
        · trivial
        · trivial
        · intro x; rfl)).1 1 rfl,
    by decide,
    (handle_changes_only_by_taskInit Module.new createdLate
      (by
        intro op hop
        simp only [createdLate, List.mem_cons, List.mem_singleton, List.not_mem_nil,
          or_false] at hop
        rcases hop with rfl | rfl | rfl | rfl
        · intro x; rfl
        · trivial
        · trivial
        · trivial)).2.2.2 7 rfl (by decide)⟩

/-- C17.  On a module that is not suspended and whose `delayTime` is zero,
`dispatcher()` invokes the work function (exactly once) for every clock
reading, readings earlier than `nextCallTime` included. -/
theorem dispatcher_zero_delay_always_invokes (m : Module) (w : Work) (now now2 : Time)
    (hs : m._suspended = false) (hz : m._delayTime.isZero = true) :
    workCalls (m.dispatcher w now now2).events = 1 := by
  rw [dispatcher_run m w now now2 hs (by simp [hz])]
  rfl

theorem dispatcher_zero_delay_always_invokes_witness :
    (scenarioAfterFirst.resume allReady).state._suspended = false ∧
    (scenarioAfterFirst.resume allReady).state._delayTime.isZero = true ∧
    Time.ge ⟨500⟩ (scenarioAfterFirst.resume allReady).state._nextCallTime = false ∧
    workCalls ((scenarioAfterFirst.resume allReady).state.dispatcher
      (constWork ⟨0⟩) ⟨500⟩ ⟨500⟩).events = 1 :=
  ⟨by decide, by decide, by decide,
    dispatcher_zero_delay_always_invokes (scenarioAfterFirst.resume allReady).state
      (constWork ⟨0⟩) ⟨500⟩ ⟨500⟩ (by decide) (by decide)⟩

/-- C18.  For every non-null module instance, each pass of the task-bound loop
is one `dispatcher()` call on the module as the previous pass left it, followed
by one wait `ulTaskNotifyTake(pdTRUE, pdMS_TO_TICKS(delay.toMsec()))` whose
timeout is the tick conversion of the millisecond value that `dispatcher()`
call returned, with nothing in between: the calls of a run extended by one
pass are the calls of the run, then those of the `dispatcher()` call, then
the wait.  A run of `n` passes makes exactly `n` waits and at most `n` work
invocations. -/
theorem task_pass_is_dispatcher_then_wait (ticks : Int → Nat) (m : Module)
    (env : List (Work × Time × Time)) (w : Work) (now now2 : Time) :
    Module.task ticks (some m) (env ++ [(w, now, now2)]) =
      (some ((m.taskLoop ticks env).state.dispatcher w now now2).state,
        (Module.task ticks (some m) env).2 ++
          ((m.taskLoop ticks env).state.dispatcher w now now2).events ++
          [Event.ulTaskNotifyTake true
            (ticks ((m.taskLoop ticks env).state.dispatcher w now now2).ret.toMsec)]) ∧
    (Module.task ticks (some m) env).1 = some (m.taskLoop ticks env).state ∧
    waitCalls (Module.task ticks (some m) env).2 = env.length ∧
    workCalls (Module.task ticks (some m) env).2 ≤ env.length := by
  refine ⟨?_, rfl, (taskLoop_counts ticks env m).1, (taskLoop_counts ticks env m).2⟩
  simp only [Module.task, taskLoop_append, Module.taskLoop, Module.taskIteration,
    List.append_nil, List.append_assoc]

theorem task_pass_is_dispatcher_then_wait_witness :
    Module.task ticks1kHz (some Module.new)
        ([(constWork ⟨1000⟩, ⟨0⟩, ⟨0⟩), (constWork ⟨1000⟩, ⟨500⟩, ⟨500⟩)]
          ++ [(constWork ⟨1000⟩, ⟨1200⟩, ⟨1200⟩)])
      = (some { scenarioAfterFirst with _nextCallTime := ⟨2200⟩ },
          [Event.workCall, Event.ulTaskNotifyTake true 1000,
            Event.ulTaskNotifyTake true 0,
            Event.workCall, Event.ulTaskNotifyTake true 1000]) :=
  (task_pass_is_dispatcher_then_wait ticks1kHz Module.new
    [(constWork ⟨1000⟩, ⟨0⟩, ⟨0⟩), (constWork ⟨1000⟩, ⟨500⟩, ⟨500⟩)]
    (constWork ⟨1000⟩) ⟨1200⟩ ⟨1200⟩).1.trans (by decide)

/-- C19.  With durations as signed whole milliseconds, on a module that is not
suspended and has a non-zero `delayTime`, a `dispatcher()` call at a reading
before `nextCallTime` never returns more than zero: the difference
`now - _nextCallTime` it computes is negative, so the value returned is
zero. -/
theorem dispatcher_early_call_never_positive (m : Module) (w : Work) (now now2 : Time)
    (hs : m._suspended = false) (hz : m._delayTime.isZero = false)
    (he : now.ge m._nextCallTime = false) :
    (now.sub m._nextCallTime).toMsec < 0 ∧
    (m.dispatcher w now now2).ret = Time.ofInt 0 ∧
    (m.dispatcher w now now2).ret.toMsec ≤ 0 := by
  have hneg : (now.sub m._nextCallTime).toMsec < 0 := by
    simp only [Time.ge, decide_eq_false_iff_not, not_le] at he
    simp only [Time.sub, Time.toMsec]
    omega
  rw [dispatcher_early m w now now2 hs hz he]
  have hret : (if (now.sub m._nextCallTime).toMsec ≥ 0 then now.sub m._nextCallTime
      else Time.ofInt 0) = Time.ofInt 0 := by
    rw [if_neg (not_le.mpr hneg)]
  refine ⟨hneg, hret, ?_⟩
  show (if (now.sub m._nextCallTime).toMsec ≥ 0 then now.sub m._nextCallTime
      else Time.ofInt 0).toMsec ≤ 0
  rw [hret]
  simp [Time.ofInt, Time.toMsec]

theorem dispatcher_early_call_never_positive_witness :
    scenarioAfterFirst._suspended = false ∧
    scenarioAfterFirst._delayTime.isZero = false ∧
    Time.ge ⟨999⟩ scenarioAfterFirst._nextCallTime = false ∧
    (Time.sub ⟨999⟩ scenarioAfterFirst._nextCallTime).toMsec < 0 ∧
    (scenarioAfterFirst.dispatcher (constWork ⟨1000⟩) ⟨999⟩ ⟨999⟩).ret = Time.ofInt 0 ∧
    (scenarioAfterFirst.dispatcher (constWork ⟨1000⟩) ⟨999⟩ ⟨999⟩).ret.toMsec ≤ 0 :=
  ⟨by decide, by decide, by decide,
    dispatcher_early_call_never_positive scenarioAfterFirst (constWork ⟨1000⟩) ⟨999⟩ ⟨999⟩
      (by decide) (by decide) (by decide)⟩

/-- C20.  In `getHwValue`, when each of the 64 raw readings of each channel
lies in 0..4095, no addition to a 32-bit accumulator overflows (each sum stays
in 0..2^32-1, so after `k` passes the accumulator holds the exact sum of the
first `k` readings), and the value handed to the voltage conversion for each
channel is the floor of the sum of that channel's 64 readings divided by 64,
which lies in 0..4095. -/
theorem getHwValue_averages_without_overflow (conv : Nat → Nat) (major minor : Nat → Int)
    (hmaj : ∀ i < EspVersion.NO_OF_SAMPLES, 0 ≤ major i ∧ major i ≤ 4095)
    (hmin : ∀ i < EspVersion.NO_OF_SAMPLES, 0 ≤ minor i ∧ minor i ≤ 4095) :
    (∀ k < EspVersion.NO_OF_SAMPLES,
      0 ≤ ((EspVersion.sampleLoop major minor k).1 : Int) + major k ∧
      ((EspVersion.sampleLoop major minor k).1 : Int) + major k < 2 ^ 32 ∧
      0 ≤ ((EspVersion.sampleLoop major minor k).2 : Int) + minor k ∧
      ((EspVersion.sampleLoop major minor k).2 : Int) + minor k < 2 ^ 32) ∧
    (∀ k ≤ EspVersion.NO_OF_SAMPLES,
      ((EspVersion.sampleLoop major minor k).1 : Int) = ∑ i ∈ Finset.range k, major i ∧
      ((EspVersion.sampleLoop major minor k).2 : Int) = ∑ i ∈ Finset.range k, minor i) ∧
    ((EspVersion.averaged major minor).1 : Int) = (∑ i ∈ Finset.range 64, major i) / 64 ∧
    ((EspVersion.averaged major minor).2 : Int) = (∑ i ∈ Finset.range 64, minor i) / 64 ∧
    (EspVersion.averaged major minor).1 ≤ 4095 ∧
    (EspVersion.averaged major minor).2 ≤ 4095 ∧
    EspVersion.getHwValue conv major minor =
      { major := conv (EspVersion.averaged major minor).1
        minor := conv (EspVersion.averaged major minor).2 } := by
  have hexact := fun k hk => sampleLoop_exact major minor k hk hmaj hmin
  have h64 := hexact EspVersion.NO_OF_SAMPLES (Nat.le_refl _)
  have b1 := readings_sum_bounds major EspVersion.NO_OF_SAMPLES hmaj
  have b2 := readings_sum_bounds minor EspVersion.NO_OF_SAMPLES hmin
  simp only [EspVersion.NO_OF_SAMPLES] at h64 b1 b2
  refine ⟨?_, hexact, ?_, ?_, ?_, ?_, rfl⟩
  · intro k hk
    have hk64 : k < 64 := hk
    have e := hexact k (Nat.le_of_lt hk)
    have c1 := readings_sum_bounds major k (fun i hi => hmaj i (Nat.lt_trans hi hk))
    have c2 := readings_sum_bounds minor k (fun i hi => hmin i (Nat.lt_trans hi hk))
    have r1 := hmaj k hk
    have r2 := hmin k hk
    rw [e.1, e.2]
    norm_num
    omega
  · simp only [EspVersion.averaged, EspVersion.NO_OF_SAMPLES]
    omega
  · simp only [EspVersion.averaged, EspVersion.NO_OF_SAMPLES]
    omega
  · simp only [EspVersion.averaged, EspVersion.NO_OF_SAMPLES]
    omega
  · simp only [EspVersion.averaged, EspVersion.NO_OF_SAMPLES]
    omega

theorem getHwValue_averages_without_overflow_witness :
    (EspVersion.averaged (fun _ => 4095) (fun i => (i : Int))).1 ≤ 4095 ∧
    ((EspVersion.sampleLoop (fun _ => 4095) (fun i => (i : Int)) 63).1 : Int) + 4095
      < 2 ^ 32 ∧
    ((EspVersion.averaged (fun _ => 4095) (fun i => (i : Int))).2 : Int)
      = (∑ i ∈ Finset.range 64, (i : Int)) / 64 :=
  have h := getHwValue_averages_without_overflow id (fun _ => 4095) (fun i => (i : Int))
    (fun _ _ => ⟨by norm_num, by norm_num⟩)
    (fun i hi => by
      have h64 : i < 64 := hi
      constructor <;> simp only <;> omega)
  ⟨h.2.2.2.2.1, (h.1 63 (by decide)).2.1, h.2.2.2.1⟩

end FwCommon
